import Mathlib

/-
Verification development for the MandelbrotSetCPP repository.

The embedded code consists of the GLSL fragment shader
(`src/res/shaders/fragment.glsl`: the escape-time evaluator `mandelbrot`,
the per-pixel coordinate mapping and the adaptive-iteration policy in
`main`) and the C++ application state and event handling
(`src/unnamed/part_001`, i.e. `main.cpp`: `MandelbrotParams`,
`MandelbrotParams::reset`, and the event loop in `main`).

Real/float arithmetic of the source is embedded exactly: shader and event
arithmetic over the rationals, and the adaptive policy over the reals
(it uses the transcendental `log2`).
-/

namespace Mandelbrot

/-! ## Escape-time evaluator (fragment.glsl, `mandelbrot`, lines 30-51) -/

/-- The squared magnitude `dot(z, z)` used by the shader's escape test. -/
def normSq (z : ℚ × ℚ) : ℚ := z.1 * z.1 + z.2 * z.2

/-- One Mandelbrot update `z = vec2(zx2 - zy2, 2.0 * zxy) + c` where
`zx2 = z.x*z.x`, `zy2 = z.y*z.y`, `zxy = z.x*z.y` (fragment.glsl lines 42-46). -/
def stepZ (c z : ℚ × ℚ) : ℚ × ℚ :=
  (z.1 * z.1 - z.2 * z.2 + c.1, 2 * (z.1 * z.2) + c.2)

/-- The orbit of `c`: `orbit c 0 = (0, 0)` (the shader's `vec2 z = vec2(0.0)`)
and `orbit c (k+1) = stepZ c (orbit c k)`. -/
def orbit (c : ℚ × ℚ) : ℕ → ℚ × ℚ
  | 0 => (0, 0)
  | k + 1 => stepZ c (orbit c k)

/-- GLSL `mix(colorBg, color, t) = colorBg + t * (color - colorBg)` per channel,
as wrapped by `getColor` (fragment.glsl lines 25-27). -/
def getColor (t : ℚ) (color colorBg : ℚ × ℚ × ℚ) : ℚ × ℚ × ℚ :=
  (colorBg.1 + t * (color.1 - colorBg.1),
   colorBg.2.1 + t * (color.2.1 - colorBg.2.1),
   colorBg.2.2 + t * (color.2.2 - colorBg.2.2))

/-- The for-loop of `mandelbrot` (fragment.glsl lines 34-48) at the level of
the `EscapeResult` abstraction: `some t` for an escape that returns
`getColor t ...`, `none` for the bounded (black) fall-through.
Arguments: `fuel` is the number of loop passes still allowed
(initially `maxIter`), `i` is the loop counter, `iter` is the shader's
`iter` variable (assigned `i` only at the end of a pass, after the
escape test and the `z` update), and `z` is the current iterate.
On escape the returned fraction is `iter / base` where `base` is the
`maxIterations` uniform, not the loop bound. -/
def mandelLoop (c : ℚ × ℚ) (base : ℕ) : ℕ → ℕ → ℕ → ℚ × ℚ → Option ℚ
  | 0, _, _, _ => none
  | fuel + 1, i, iter, z =>
    if 4 < normSq z then some ((iter : ℚ) / (base : ℚ))
    else mandelLoop c base fuel (i + 1) i (stepZ c z)

/-- Escape-time evaluator: the shader's `mandelbrot(c, maxIter, ...)` loop
started from `z = vec2(0.0)`, `i = 0`, `iter = 0`, with loop bound
`iterCap` (the `maxIter` parameter, possibly the adaptive cap) and
normalization denominator `base` (the `maxIterations` uniform). -/
def escapeTime (c : ℚ × ℚ) (iterCap base : ℕ) : Option ℚ :=
  mandelLoop c base iterCap 0 0 (0, 0)

/-- The full `mandelbrot` loop as written in the shader, producing the
`vec4` fragment color: `vec4(getColor(iter/maxIterations, ...), 1.0)` on
escape and `vec4(0,0,0,1)` on fall-through. -/
def mandelbrotGo (c : ℚ × ℚ) (base : ℕ) (color colorBg : ℚ × ℚ × ℚ) :
    ℕ → ℕ → ℕ → ℚ × ℚ → (ℚ × ℚ × ℚ) × ℚ
  | 0, _, _, _ => ((0, 0, 0), 1)
  | fuel + 1, i, iter, z =>
    if 4 < normSq z then (getColor ((iter : ℚ) / (base : ℚ)) color colorBg, 1)
    else mandelbrotGo c base color colorBg fuel (i + 1) i (stepZ c z)

/-- The shader function `mandelbrot(c, maxIter, color, colorBg)`
(fragment.glsl lines 30-51). -/
def mandelbrot (c : ℚ × ℚ) (maxIter base : ℕ) (color colorBg : ℚ × ℚ × ℚ) :
    (ℚ × ℚ × ℚ) × ℚ :=
  mandelbrotGo c base color colorBg maxIter 0 0 (0, 0)

/-! ## Adaptive-iteration policy (fragment.glsl, `main`, lines 69-76) -/

/-- The GLSL `int(x)` conversion: the fractional part is dropped,
i.e. truncation toward zero. -/
noncomputable def truncInt (x : ℝ) : ℤ := if 0 ≤ x then ⌊x⌋ else ⌈x⌉

/-- The adaptive iteration cap computed in the shader's `main`:
`adaptiveMaxIter = maxIterations` when `adaptiveIterations` is off, and
otherwise `min(int(float(maxIterations) * (1.0 + log2(max(1.0/zoom, 1.0)) * 0.1)), 2000)`. -/
noncomputable def adaptiveMaxIter (adaptiveIterations : Bool) (maxIterations : ℤ)
    (zoom : ℝ) : ℤ :=
  if adaptiveIterations then
    min (truncInt ((maxIterations : ℝ) *
      (1 + Real.logb 2 (max (1 / zoom) 1) * (1 / 10)))) 2000
  else maxIterations

/-- Modelled from the spec: the same policy but with the spec's stated
`round(...)` in place of the code's `int(...)` truncation, for comparison
with `adaptiveMaxIter`. -/
noncomputable def adaptiveMaxIterSpecRounded (adaptiveIterations : Bool)
    (maxIterations : ℤ) (zoom : ℝ) : ℤ :=
  if adaptiveIterations then
    min (round ((maxIterations : ℝ) *
      (1 + Real.logb 2 (max (1 / zoom) 1) * (1 / 10)))) 2000
  else maxIterations

/-! ## Coordinate mapping (fragment.glsl, `main`, lines 56-67) -/

/-- The per-pixel pixel-to-complex-plane mapping of the shader's `main`:
`c = offset + vec2((pixelOffset.x / resolution.x) * zoom * aspectRatio * 2.0,
-(pixelOffset.y / resolution.y) * zoom * 2.0)` where
`pixelOffset = screenPos - resolution * 0.5` and
`aspectRatio = resolution.x / resolution.y`. -/
def coordinateMapper (screenPos resolution : ℚ × ℚ) (zoom : ℚ)
    (offset : ℚ × ℚ) : ℚ × ℚ :=
  let screenCenter : ℚ × ℚ := (resolution.1 * (1 / 2), resolution.2 * (1 / 2))
  let pixelOffset : ℚ × ℚ := (screenPos.1 - screenCenter.1, screenPos.2 - screenCenter.2)
  let aspect : ℚ := resolution.1 / resolution.2
  (offset.1 + (pixelOffset.1 / resolution.1) * zoom * aspect * 2,
   offset.2 + (-(pixelOffset.2 / resolution.2) * zoom * 2))

/-- The fragment coordinate of the physical window pixel under the cursor.
SFML mouse positions (used by the wheel handler, part_001 line 655) have a
top-left origin with y growing downward, while `gl_FragCoord` (the
shader's `screenPos`, fragment.glsl line 56) has a bottom-left origin with
y growing upward, so the cursor at window position `(mx, my)` lies in
fragment row `h - my` of a window of height `h`. -/
def fragCoordOfMouse (mx my h : ℚ) : ℚ × ℚ := (mx, h - my)

/-! ## Application state (part_001, `MandelbrotParams`, lines 32-73) -/

/-- The foreground palette `colors` (part_001 lines 46-54). -/
def colors : List (ℚ × ℚ × ℚ) :=
  [(1, 1, 1), (1, 0, 0), (0, 1, 0), (0, 0, 1), (1, 1, 0), (1, 0, 1), (0, 1, 1)]

/-- The background palette `colorsBg` (part_001 lines 55-63). -/
def colorsBg : List (ℚ × ℚ × ℚ) :=
  [(0, 0, 0), (1/2, 0, 0), (0, 1/2, 0), (0, 0, 1/2), (1/2, 1/2, 0), (1/2, 0, 1/2), (0, 1/2, 1/2)]

/-- The palette length `params.colors.size()`, as the integer used in the
palette-cycling modulus. -/
def paletteLength : ℤ := (colors.length : ℤ)

/-- The mutable `MandelbrotParams` struct (part_001 lines 32-44): view state,
palette indices, adaptive flag and mouse-drag state. -/
structure MandelbrotParams where
  zoom : ℚ
  offsetX : ℚ
  offsetY : ℚ
  maxIterations : ℤ
  colorMode : ℤ
  colorModeBg : ℤ
  adaptiveIterations : Bool
  isDragging : Bool
  lastMouseX : ℚ
  lastMouseY : ℚ
deriving DecidableEq

/-- The value `MandelbrotParams params;` constructed once at startup
(part_001 line 371), with the member initializers of lines 33-44. -/
def initialParams : MandelbrotParams :=
  { zoom := 1, offsetX := 3/10, offsetY := 1, maxIterations := 100,
    colorMode := 0, colorModeBg := 0, adaptiveIterations := true,
    isDragging := false, lastMouseX := 0, lastMouseY := 0 }

/-- `MandelbrotParams::reset` (part_001 lines 65-72): assigns `zoom`,
`offsetX`, `offsetY`, `maxIterations`, `colorMode` and
`adaptiveIterations`; the remaining fields are untouched. -/
def reset (p : MandelbrotParams) : MandelbrotParams :=
  { p with zoom := 2, offsetX := 0, offsetY := 0, maxIterations := 100,
           colorMode := 0, adaptiveIterations := true }

/-! ## Input events (part_001, `main` event loop, lines 580-676) -/

/-- The discrete input events handled by the event loop that mutate
`MandelbrotParams`.  Mouse-move and wheel events carry the cursor
position and the current window size, as read by their handlers. -/
inductive InputEvent where
  | keyR
  | keyC
  | keyV
  | keyB
  | keyN
  | keyPlus
  | keyMinus
  | keyA
  | mousePress (x y : ℚ)
  | mouseRelease
  | mouseMove (x y w h : ℚ)
  | wheel (delta mx my w h : ℚ)

/-- The event-loop transition on `MandelbrotParams` (part_001 lines 587-675):
R resets; C/V cycle the foreground palette index; B/N cycle the background
palette index; the iteration keys adjust `maxIterations` with clamps; A toggles the
adaptive flag (the plus and minus keys are `keyPlus`, `keyMinus`);
left press/release set the drag state; a move while
dragging pans `offset`; a vertical wheel scroll performs the
zoom-to-cursor update with factor `0.85` (scroll forward) or `1.176`. -/
def applyEvent (p : MandelbrotParams) : InputEvent → MandelbrotParams
  | .keyR => reset p
  | .keyC => { p with colorMode := (p.colorMode + 1) % paletteLength }
  | .keyV => { p with colorMode := (p.colorMode - 1 + paletteLength) % paletteLength }
  | .keyB => { p with colorModeBg := (p.colorModeBg + 1) % paletteLength }
  | .keyN => { p with colorModeBg := (p.colorModeBg - 1 + paletteLength) % paletteLength }
  | .keyPlus => { p with maxIterations := min 1000 (p.maxIterations + 10) }
  | .keyMinus => { p with maxIterations := max 10 (p.maxIterations - 10) }
  | .keyA => { p with adaptiveIterations := !p.adaptiveIterations }
  | .mousePress x y => { p with isDragging := true, lastMouseX := x, lastMouseY := y }
  | .mouseRelease => { p with isDragging := false }
  | .mouseMove x y w h =>
    if p.isDragging then
      { p with
        offsetX := p.offsetX - ((x - p.lastMouseX) / w) * p.zoom * (w / h) * 2,
        offsetY := p.offsetY - ((y - p.lastMouseY) / h) * p.zoom * 2,
        lastMouseX := x, lastMouseY := y }
    else p
  | .wheel delta mx my w h =>
    let zoomFactor : ℚ := if 0 < delta then 17/20 else 147/125
    let mouseX : ℚ := ((mx / w - 1/2) * 2) * (w / h)
    let mouseY : ℚ := -(my / h - 1/2) * 2
    let complexX : ℚ := mouseX * p.zoom + p.offsetX
    let complexY : ℚ := mouseY * p.zoom + p.offsetY
    let newZoom : ℚ := p.zoom * zoomFactor
    { p with zoom := newZoom,
             offsetX := complexX - mouseX * newZoom,
             offsetY := complexY - mouseY * newZoom }

/-! ## Loop lemmas for the escape-time evaluator -/

/-- A loop pass whose escape test fires returns the held `iter` divided by
`base`, whatever the loop counter is. -/
theorem mandelLoop_hit (c : ℚ × ℚ) (base fuel i iter : ℕ) (z : ℚ × ℚ)
    (hfuel : 1 ≤ fuel) (hz : 4 < normSq z) :
    mandelLoop c base fuel i iter z = some ((iter : ℚ) / (base : ℚ)) := by
  cases fuel with
  | zero => omega
  | succ m => rw [mandelLoop, if_pos hz]

/-- If the orbit first leaves the disk of squared radius 4 at index `k`, the
loop started at counter `i < k` with enough fuel escapes and reports the
held counter `k - 1`. -/
theorem mandelLoop_escape (c : ℚ × ℚ) (base k : ℕ)
    (hk : 4 < normSq (orbit c k))
    (hmin : ∀ j, j < k → normSq (orbit c j) ≤ 4) :
    ∀ fuel i iter, i < k → k < i + fuel →
      mandelLoop c base fuel i iter (orbit c i) =
        some (((k - 1 : ℕ) : ℚ) / (base : ℚ)) := by
  intro fuel
  induction fuel with
  | zero => intro i iter h1 h2; omega
  | succ m ih =>
    intro i iter h1 h2
    have hnot : ¬ 4 < normSq (orbit c i) := not_lt.mpr (hmin i h1)
    rw [mandelLoop, if_neg hnot]
    have hstep : stepZ c (orbit c i) = orbit c (i + 1) := rfl
    rcases Nat.lt_or_ge (i + 1) k with h | h
    · rw [hstep]
      exact ih (i + 1) i h (by omega)
    · have hik : k = i + 1 := by omega
      have hsub : (k - 1 : ℕ) = i := by omega
      rw [hstep, ← hik, hsub]
      exact mandelLoop_hit c base m k i (orbit c k) (by omega) hk

/-- If the orbit stays inside the disk for the whole fuel window, the loop
falls through and the point is reported bounded. -/
theorem mandelLoop_bounded (c : ℚ × ℚ) (base : ℕ) :
    ∀ fuel i iter, (∀ j, i ≤ j → j < i + fuel → normSq (orbit c j) ≤ 4) →
      mandelLoop c base fuel i iter (orbit c i) = none := by
  intro fuel
  induction fuel with
  | zero => intro i iter _; rfl
  | succ m ih =>
    intro i iter h
    have hnot : ¬ 4 < normSq (orbit c i) := not_lt.mpr (h i le_rfl (by omega))
    rw [mandelLoop, if_neg hnot]
    have hstep : stepZ c (orbit c i) = orbit c (i + 1) := rfl
    rw [hstep]
    exact ih (i + 1) i fun j h1 h2 => h j (by omega) (by omega)

/-- The evaluator on an orbit that first exceeds squared magnitude 4 at
index `k < iterCap` returns the escape fraction `(k - 1) / base`. -/
theorem escapeTime_escape (c : ℚ × ℚ) (iterCap base k : ℕ)
    (hcap : k < iterCap) (hk : 4 < normSq (orbit c k))
    (hmin : ∀ j, j < k → normSq (orbit c j) ≤ 4) :
    escapeTime c iterCap base = some (((k - 1 : ℕ) : ℚ) / (base : ℚ)) := by
  have hk0 : 0 < k := by
    rcases Nat.eq_zero_or_pos k with h | h
    · subst h
      norm_num [orbit, normSq] at hk
    · exact h
  have h0 : (0, 0) = orbit c 0 := rfl
  rw [escapeTime, h0]
  exact mandelLoop_escape c base k hk hmin iterCap 0 0 hk0 (by omega)

/-- The evaluator on an orbit that stays inside the disk for `iterCap`
indices reports the point bounded. -/
theorem escapeTime_bounded (c : ℚ × ℚ) (iterCap base : ℕ)
    (h : ∀ j, j < iterCap → normSq (orbit c j) ≤ 4) :
    escapeTime c iterCap base = none := by
  have h0 : (0, 0) = orbit c 0 := rfl
  rw [escapeTime, h0]
  exact mandelLoop_bounded c base iterCap 0 0 fun j h1 h2 => h j (by omega)

/-- The orbit of the origin is constantly the origin. -/
theorem orbit_zero (k : ℕ) : orbit (0, 0) k = (0, 0) := by
  induction k with
  | zero => rfl
  | succ m ih =>
    rw [orbit, ih]
    simp [stepZ]

/-- The `vec4`-producing loop is the color rendering of the `Option`-level
loop, pass by pass. -/
theorem mandelbrotGo_eq (c : ℚ × ℚ) (base : ℕ) (color colorBg : ℚ × ℚ × ℚ) :
    ∀ fuel i iter z,
      mandelbrotGo c base color colorBg fuel i iter z =
        match mandelLoop c base fuel i iter z with
        | some t => (getColor t color colorBg, 1)
        | none => ((0, 0, 0), 1) := by
  intro fuel
  induction fuel with
  | zero => intro i iter z; rfl
  | succ m ih =>
    intro i iter z
    rw [mandelbrotGo, mandelLoop]
    by_cases hz : 4 < normSq z
    · rw [if_pos hz, if_pos hz]
    · rw [if_neg hz, if_neg hz]
      exact ih (i + 1) i (stepZ c z)

/-- The shader's `mandelbrot` function is the color rendering of the
escape-time abstraction: `getColor t` on escape fraction `t`, black when
the point is reported bounded. -/
theorem mandelbrot_eq_escapeTime (c : ℚ × ℚ) (maxIter base : ℕ)
    (color colorBg : ℚ × ℚ × ℚ) :
    mandelbrot c maxIter base color colorBg =
      match escapeTime c maxIter base with
      | some t => (getColor t color colorBg, 1)
      | none => ((0, 0, 0), 1) :=
  mandelbrotGo_eq c base color colorBg maxIter 0 0 (0, 0)

/-! ## Claim theorems -/

/-- C1: if the evaluator escapes (the orbit first exceeds squared magnitude 4
at an index `k < iterCap`, so the test fires with held loop-counter value
`k - 1`), the result is `Escaped((k - 1) / base)` where `base` is the base
`maxIterations` uniform, not the adaptive `iterCap` driving the loop bound;
if no escape occurs within `iterCap` passes the result is `Bounded`; and
the returned fraction can exceed 1 when `iterCap > base` and the escape
index is at least `base`. -/
theorem c1_escape_normalization (c : ℚ × ℚ) (iterCap base : ℕ) :
    (∀ k, k < iterCap → 4 < normSq (orbit c k) →
        (∀ j, j < k → normSq (orbit c j) ≤ 4) →
        escapeTime c iterCap base = some (((k - 1 : ℕ) : ℚ) / (base : ℚ)))
    ∧ ((∀ k, k < iterCap → normSq (orbit c k) ≤ 4) →
        escapeTime c iterCap base = none)
    ∧ (∃ (c2 : ℚ × ℚ) (cap2 base2 i : ℕ), base2 < cap2 ∧ base2 ≤ i ∧
        escapeTime c2 cap2 base2 = some ((i : ℚ) / (base2 : ℚ)) ∧
        1 < (i : ℚ) / (base2 : ℚ)) := by
  refine ⟨fun k hcap hk hmin => escapeTime_escape c iterCap base k hcap hk hmin,
    fun hin => escapeTime_bounded c iterCap base hin,
    ⟨(3/10, 0), 13, 10, 11, by omega, by omega, ?_, by norm_num⟩⟩
  have h := escapeTime_escape (3/10, 0) 13 10 12 (by omega)
    (by norm_num [orbit, stepZ, normSq])
    (by
      intro j hj
      interval_cases j <;> norm_num [orbit, stepZ, normSq])
  rw [h]

/-- C1 witness: concrete instantiation of the `Bounded` branch at the
origin with the hypothesis discharged. -/
theorem c1_escape_normalization_witness :
    (∀ k, k < 5 → normSq (orbit (0, 0) k) ≤ 4) ∧
      escapeTime (0, 0) 5 100 = none := by
  have hin : ∀ k, k < 5 → normSq (orbit (0, 0) k) ≤ 4 := by
    intro k hk
    rw [orbit_zero]
    norm_num [normSq]
  exact ⟨hin, (c1_escape_normalization (0, 0) 5 100).2.1 hin⟩

/-- C5 counterexample: `c = 2 + 0i` does not escape with reported iteration
index 0; the evaluator returns the fraction `1 / 100`, i.e. held index 1
(the test at loop counter 1 sees `|z₁|² = 4`, which is not `> 4`). -/
theorem c5_counterexample :
    escapeTime (2, 0) 100 100 = some (1 / 100) ∧
      escapeTime (2, 0) 100 100 ≠ some 0 := by
  have h := escapeTime_escape (2, 0) 100 100 2 (by omega)
    (by norm_num [orbit, stepZ, normSq])
    (by
      intro j hj
      interval_cases j <;> norm_num [orbit, stepZ, normSq])
  rw [h]
  norm_num

/-- C5 (amended): `c = 0 + 0i` is `Bounded` for every iteration cap;
`c = 2 + 0i` escapes with reported iteration index 1 for every cap at
least 3 (the test first fires at loop counter 2, since `|z₁|² = 4` is not
`> 4`); `c = 3 + 0i` escapes with reported index 0 for every cap at least
2 (one `z` update suffices). -/
theorem c5_boundary_cases (iterCap base : ℕ) :
    escapeTime (0, 0) iterCap base = none
    ∧ (3 ≤ iterCap → escapeTime (2, 0) iterCap base = some (1 / (base : ℚ)))
    ∧ (2 ≤ iterCap → escapeTime (3, 0) iterCap base = some 0) := by
  refine ⟨escapeTime_bounded _ _ _ ?_, fun h3 => ?_, fun h2 => ?_⟩
  · intro j hj
    rw [orbit_zero]
    norm_num [normSq]
  · have h := escapeTime_escape (2, 0) iterCap base 2 (by omega)
      (by norm_num [orbit, stepZ, normSq])
      (by
        intro j hj
        interval_cases j <;> norm_num [orbit, stepZ, normSq])
    rw [h]
    norm_num
  · have h := escapeTime_escape (3, 0) iterCap base 1 (by omega)
      (by norm_num [orbit, stepZ, normSq])
      (by
        intro j hj
        interval_cases j
        norm_num [orbit, normSq])
    rw [h]
    norm_num

/-- C5 witness: the boundary cases at concrete cap 100 and base 100, with
both cap hypotheses discharged. -/
theorem c5_boundary_cases_witness :
    3 ≤ 100 ∧ 2 ≤ 100 ∧ escapeTime (0, 0) 100 100 = none
    ∧ escapeTime (2, 0) 100 100 = some (1 / (100 : ℚ))
    ∧ escapeTime (3, 0) 100 100 = some 0 :=
  ⟨by omega, by omega, (c5_boundary_cases 100 100).1,
    (c5_boundary_cases 100 100).2.1 (by omega),
    (c5_boundary_cases 100 100).2.2 (by omega)⟩

/-- C3 counterexample: the startup `MandelbrotParams` does not have
`zoom = 2.0` and `center = (0, 0)`; its member initializers are
`zoom = 1.0`, `offsetX = 0.3`, `offsetY = 1.0`. -/
theorem c3_counterexample :
    ¬ (initialParams.zoom = 2 ∧ initialParams.offsetX = 0 ∧
       initialParams.offsetY = 0 ∧ initialParams.maxIterations = 100 ∧
       initialParams.adaptiveIterations = true) := by
  intro hcl
  have h1 : (1 : ℚ) = 2 := hcl.1
  norm_num at h1

/-- C3 (amended): the `MandelbrotParams` constructed once at startup has
`zoom = 1.0`, `center = (0.3, 1.0)`, `maxIterations = 100` and
`adaptiveEnabled = true`. -/
theorem c3_startup_state :
    initialParams.zoom = 1 ∧ initialParams.offsetX = 3/10 ∧
      initialParams.offsetY = 1 ∧ initialParams.maxIterations = 100 ∧
      initialParams.adaptiveIterations = true :=
  ⟨rfl, rfl, rfl, rfl, rfl⟩

/-- C7: applying the Reset command twice yields the same state as applying
it once, and the reset state has `zoom = 2.0`, `center = (0, 0)`,
`maxIterations = 100` and `adaptiveEnabled = true`. -/
theorem c7_reset_idempotent (p : MandelbrotParams) :
    applyEvent (applyEvent p .keyR) .keyR = applyEvent p .keyR
    ∧ (applyEvent p .keyR).zoom = 2
    ∧ (applyEvent p .keyR).offsetX = 0
    ∧ (applyEvent p .keyR).offsetY = 0
    ∧ (applyEvent p .keyR).maxIterations = 100
    ∧ (applyEvent p .keyR).adaptiveIterations = true :=
  ⟨rfl, rfl, rfl, rfl, rfl, rfl⟩

/-- C10: Reset leaves the background palette index and the drag state
(dragging flag and last recorded pointer position) unchanged, while it
restores `zoom`, `center`, `maxIterations`, the foreground palette index
and the adaptive flag to the reset defaults. -/
theorem c10_reset_frame_effect (p : MandelbrotParams) :
    (applyEvent p .keyR).colorModeBg = p.colorModeBg
    ∧ (applyEvent p .keyR).isDragging = p.isDragging
    ∧ (applyEvent p .keyR).lastMouseX = p.lastMouseX
    ∧ (applyEvent p .keyR).lastMouseY = p.lastMouseY
    ∧ (applyEvent p .keyR).zoom = 2
    ∧ (applyEvent p .keyR).offsetX = 0
    ∧ (applyEvent p .keyR).offsetY = 0
    ∧ (applyEvent p .keyR).maxIterations = 100
    ∧ (applyEvent p .keyR).colorMode = 0
    ∧ (applyEvent p .keyR).adaptiveIterations = true :=
  ⟨rfl, rfl, rfl, rfl, rfl, rfl, rfl, rfl, rfl, rfl⟩

/-- C8: the increase-iterations key sets `maxIterations` to
`min(1000, maxIterations + 10)`, the decrease-iterations key to
`max(10, maxIterations - 10)`, and both preserve the invariant
`10 ≤ maxIterations ≤ 1000`. -/
theorem c8_iteration_clamps (p : MandelbrotParams)
    (h1 : 10 ≤ p.maxIterations) (h2 : p.maxIterations ≤ 1000) :
    (applyEvent p .keyPlus).maxIterations = min 1000 (p.maxIterations + 10)
    ∧ (applyEvent p .keyMinus).maxIterations = max 10 (p.maxIterations - 10)
    ∧ 10 ≤ (applyEvent p .keyPlus).maxIterations
    ∧ (applyEvent p .keyPlus).maxIterations ≤ 1000
    ∧ 10 ≤ (applyEvent p .keyMinus).maxIterations
    ∧ (applyEvent p .keyMinus).maxIterations ≤ 1000 := by
  refine ⟨rfl, rfl, ?_, ?_, ?_, ?_⟩ <;>
    simp only [applyEvent] <;> omega

/-- C8 witness: the clamps at the startup state, whose iteration budget is
100. -/
theorem c8_iteration_clamps_witness :
    10 ≤ initialParams.maxIterations ∧ initialParams.maxIterations ≤ 1000
    ∧ (applyEvent initialParams .keyPlus).maxIterations =
        min 1000 (initialParams.maxIterations + 10)
    ∧ (applyEvent initialParams .keyMinus).maxIterations =
        max 10 (initialParams.maxIterations - 10) := by
  have h := c8_iteration_clamps initialParams (by norm_num [initialParams])
    (by norm_num [initialParams])
  exact ⟨by norm_num [initialParams], by norm_num [initialParams], h.1, h.2.1⟩

/-- Cycling the foreground palette forward `n` times adds `n` modulo the
palette length 7, for an index already in range. -/
theorem iterate_keyC_colorMode :
    ∀ (n : ℕ) (p : MandelbrotParams), 0 ≤ p.colorMode → p.colorMode < 7 →
      (((fun q => applyEvent q .keyC)^[n]) p).colorMode = (p.colorMode + n) % 7 := by
  intro n
  induction n with
  | zero =>
    intro p h0 h7
    simp only [Function.iterate_zero, id, Nat.cast_zero, add_zero]
    omega
  | succ m ih =>
    intro p h0 h7
    rw [Function.iterate_succ_apply]
    have hq : (applyEvent p .keyC).colorMode = (p.colorMode + 1) % 7 := by
      simp [applyEvent, paletteLength, colors]
    rw [ih (applyEvent p .keyC) (by rw [hq]; omega) (by rw [hq]; omega), hq]
    push_cast
    omega

/-- C9: cycling the foreground palette index forward `P` times (`P` the
palette length) returns it to its original value, and a single forward or
backward cycle keeps it in `[0, P)`. -/
theorem c9_palette_wraparound (p : MandelbrotParams)
    (h0 : 0 ≤ p.colorMode) (h7 : p.colorMode < paletteLength) :
    (((fun q => applyEvent q .keyC)^[colors.length]) p).colorMode = p.colorMode
    ∧ 0 ≤ (applyEvent p .keyC).colorMode
    ∧ (applyEvent p .keyC).colorMode < paletteLength
    ∧ 0 ≤ (applyEvent p .keyV).colorMode
    ∧ (applyEvent p .keyV).colorMode < paletteLength := by
  have hpl : paletteLength = 7 := rfl
  rw [hpl] at h7
  have hC : (applyEvent p .keyC).colorMode = (p.colorMode + 1) % 7 := by
    simp [applyEvent, paletteLength, colors]
  have hV : (applyEvent p .keyV).colorMode = (p.colorMode - 1 + 7) % 7 := by
    simp [applyEvent, paletteLength, colors]
  have hlen : colors.length = 7 := rfl
  refine ⟨?_, ?_, ?_, ?_, ?_⟩
  · rw [iterate_keyC_colorMode colors.length p h0 h7, hlen]
    push_cast
    omega
  · rw [hC]; omega
  · rw [hpl, hC]; omega
  · rw [hV]; omega
  · rw [hpl, hV]; omega

/-- C9 witness: the wrap-around at the startup state, whose foreground
index is 0. -/
theorem c9_palette_wraparound_witness :
    0 ≤ initialParams.colorMode ∧ initialParams.colorMode < paletteLength
    ∧ (((fun q => applyEvent q .keyC)^[colors.length]) initialParams).colorMode
        = initialParams.colorMode := by
  have h := c9_palette_wraparound initialParams (by norm_num [initialParams])
    (by norm_num [initialParams, paletteLength, colors])
  exact ⟨by norm_num [initialParams],
    by norm_num [initialParams, paletteLength, colors], h.1⟩

/-- C6: every input event applied to a state with positive zoom yields a
state with positive zoom; the only zoom mutations multiply by one of the
positive factors 0.85 and 1.176 or reset to 2.0, so a non-positive zoom is
never produced and never reaches the adaptive policy's division and log2. -/
theorem c6_zoom_stays_positive (p : MandelbrotParams) (e : InputEvent)
    (h : 0 < p.zoom) : 0 < (applyEvent p e).zoom := by
  cases e with
  | keyR => norm_num [applyEvent, reset]
  | keyC => exact h
  | keyV => exact h
  | keyB => exact h
  | keyN => exact h
  | keyPlus => exact h
  | keyMinus => exact h
  | keyA => exact h
  | mousePress x y => exact h
  | mouseRelease => exact h
  | mouseMove x y w hwin =>
    simp only [applyEvent]
    split <;> exact h
  | wheel delta mx my w hwin =>
    exact mul_pos h (by split <;> norm_num)

/-- C6 witness: a concrete wheel event applied at the startup state keeps
the zoom positive. -/
theorem c6_zoom_stays_positive_witness :
    0 < initialParams.zoom ∧
      0 < (applyEvent initialParams (.wheel 1 600 400 1200 800)).zoom :=
  ⟨by norm_num [initialParams],
    c6_zoom_stays_positive initialParams (.wheel 1 600 400 1200 800)
      (by norm_num [initialParams])⟩

/-- The wheel handler's update preserves the mapped point of the *pair*
`(mx, my)` taken verbatim as the shader's `screenPos`.  Since `screenPos`
is `gl_FragCoord` (bottom-left origin) while `(mx, my)` is the SFML
mouse position (top-left origin), that pair is NOT the cursor's physical
pixel but its vertical mirror, in fragment row `my` instead of `h - my`:
this lemma therefore documents the handler's internal self-consistency
under the wrong vertical sign, not the zoom-to-cursor invariant. -/
theorem wheel_round_trip_at_mirrored_row (p : MandelbrotParams)
    (delta mx my w h : ℚ) (hw : 0 < w) (hh : 0 < h) :
    coordinateMapper (mx, my) (w, h)
        (applyEvent p (.wheel delta mx my w h)).zoom
        ((applyEvent p (.wheel delta mx my w h)).offsetX,
          (applyEvent p (.wheel delta mx my w h)).offsetY)
      = coordinateMapper (mx, my) (w, h) p.zoom (p.offsetX, p.offsetY) := by
  have hw0 : w ≠ 0 := ne_of_gt hw
  have hh0 : h ≠ 0 := ne_of_gt hh
  simp only [applyEvent, coordinateMapper, Prod.mk.injEq]
  split_ifs with hd <;> constructor <;> field_simp <;> ring

/-- C4: the zoom-to-cursor round trip fails in the code at a concrete
input.  At the startup state (`zoom = 1`, `offset = (0.3, 1)`), window
1200 x 800, cursor at window position `(600, 200)` (physical pixel in
fragment row 600), one wheel-forward scroll (factor 0.85): the complex
point the shader displays at the cursor's pixel is `0.3 + 0.5i` before
the zoom and `0.3 + 0.65i` after it — the point under the cursor drifts
by `2 * mouseY * zoom * (1 - factor) = 0.15`, because the handler reads
the cursor in top-left y-down window coordinates while `gl_FragCoord` is
bottom-left y-up, so it solves the offset for the vertically mirrored
pixel. -/
theorem c4_cursor_point_drift :
    coordinateMapper (fragCoordOfMouse 600 200 800) (1200, 800)
        initialParams.zoom (initialParams.offsetX, initialParams.offsetY)
      = (3/10, 1/2)
    ∧ coordinateMapper (fragCoordOfMouse 600 200 800) (1200, 800)
        (applyEvent initialParams (.wheel 1 600 200 1200 800)).zoom
        ((applyEvent initialParams (.wheel 1 600 200 1200 800)).offsetX,
          (applyEvent initialParams (.wheel 1 600 200 1200 800)).offsetY)
      = (3/10, 13/20)
    ∧ ((3/10, 1/2) : ℚ × ℚ) ≠ (3/10, 13/20) := by
  refine ⟨?_, ?_, ?_⟩
  · simp only [coordinateMapper, fragCoordOfMouse, initialParams, Prod.mk.injEq]
    norm_num
  · simp only [applyEvent, coordinateMapper, fragCoordOfMouse, initialParams,
      Prod.mk.injEq]
    norm_num
  · intro hcl
    have h2 : (1/2 : ℚ) = 13/20 := congrArg Prod.snd hcl
    norm_num at h2

/-- The adaptive multiplier `1 + log2(max(1/zoom, 1)) * 0.1` is at least 1. -/
theorem one_le_adaptive_multiplier (z : ℝ) :
    1 ≤ 1 + Real.logb 2 (max (1 / z) 1) * (1 / 10) := by
  have hlog : 0 ≤ Real.logb 2 (max (1 / z) 1) :=
    Real.logb_nonneg one_lt_two (le_max_right _ _)
  nlinarith

/-- C2 (amended): with `adaptiveEnabled` off the policy is the identity on
`maxIterations`; with it on, the result is
`min(int(maxIterations * (1 + log2(max(1/zoom, 1)) * 0.1)), 2000)` where
`int` truncates toward zero (not `round`); it equals `maxIterations`
whenever `zoom ≥ 1`, never exceeds 2000, and is monotonically
non-increasing as zoom increases. -/
theorem c2_adaptive_policy (m : ℤ) (z : ℝ) (hz : 0 < z)
    (hm10 : 10 ≤ m) (hm1000 : m ≤ 1000) :
    adaptiveMaxIter false m z = m
    ∧ adaptiveMaxIter true m z =
        min (truncInt ((m : ℝ) * (1 + Real.logb 2 (max (1 / z) 1) * (1 / 10)))) 2000
    ∧ (1 ≤ z → adaptiveMaxIter true m z = m)
    ∧ adaptiveMaxIter true m z ≤ 2000
    ∧ (∀ z2 : ℝ, z ≤ z2 → adaptiveMaxIter true m z2 ≤ adaptiveMaxIter true m z) := by
  have hm0R : (0 : ℝ) ≤ (m : ℝ) := by
    exact_mod_cast (by omega : (0 : ℤ) ≤ m)
  refine ⟨rfl, rfl, fun h1z => ?_, ?_, fun z2 hz2 => ?_⟩
  · have hd : (1 : ℝ) / z ≤ 1 := by
      rw [div_le_one hz]
      exact h1z
    have hexpr : (m : ℝ) * (1 + Real.logb 2 (max (1 / z) 1) * (1 / 10)) = (m : ℝ) := by
      rw [max_eq_right hd, Real.logb_one]
      ring
    simp only [adaptiveMaxIter, if_pos rfl]
    rw [hexpr, truncInt, if_pos hm0R, Int.floor_intCast]
    omega
  · simp only [adaptiveMaxIter, if_pos rfl]
    exact min_le_right _ _
  · have hz2pos : 0 < z2 := lt_of_lt_of_le hz hz2
    simp only [adaptiveMaxIter, if_pos rfl]
    refine min_le_min ?_ le_rfl
    have hmaxpos : (0 : ℝ) < max (1 / z2) 1 := lt_of_lt_of_le one_pos (le_max_right _ _)
    have hlogle : Real.logb 2 (max (1 / z2) 1) ≤ Real.logb 2 (max (1 / z) 1) :=
      Real.logb_le_logb_of_le one_lt_two hmaxpos
        (max_le_max (one_div_le_one_div_of_le hz hz2) le_rfl)
    have hA : (m : ℝ) * (1 + Real.logb 2 (max (1 / z2) 1) * (1 / 10)) ≤
        (m : ℝ) * (1 + Real.logb 2 (max (1 / z) 1) * (1 / 10)) := by
      nlinarith
    have h02 : (0 : ℝ) ≤ (m : ℝ) * (1 + Real.logb 2 (max (1 / z2) 1) * (1 / 10)) :=
      mul_nonneg hm0R (le_trans zero_le_one (one_le_adaptive_multiplier z2))
    rw [truncInt, truncInt, if_pos h02, if_pos (le_trans h02 hA)]
    exact Int.floor_mono hA

/-- C2 witness: the policy at zoom 2 and iteration budget 100 is the
identity, with all hypotheses discharged. -/
theorem c2_adaptive_policy_witness :
    (0 : ℝ) < 2 ∧ (10 : ℤ) ≤ 100 ∧ (100 : ℤ) ≤ 1000 ∧
      adaptiveMaxIter true 100 2 = 100 :=
  ⟨by norm_num, by norm_num, by norm_num,
    (c2_adaptive_policy 100 2 (by norm_num) (by norm_num) (by norm_num)).2.2.1
      (by norm_num)⟩

/-- C2 counterexample: at `maxIterations = 16` and `zoom = 1/2` the exact
value is `16 * 1.1 = 17.6`; the code's `int(...)` truncation yields 17
while the spec's `round(...)` yields 18, so the policy is not rounded. -/
theorem c2_counterexample :
    adaptiveMaxIter true 16 (1 / 2 : ℝ) = 17
    ∧ adaptiveMaxIterSpecRounded true 16 (1 / 2 : ℝ) = 18
    ∧ (17 : ℤ) ≠ 18 := by
  have hmax : max (1 / (1 / 2) : ℝ) 1 = 2 := by norm_num
  have hlogb : Real.logb 2 (max (1 / (1 / 2) : ℝ) 1) = 1 := by
    rw [hmax]
    exact Real.logb_self_eq_one one_lt_two
  have hexpr : ((16 : ℤ) : ℝ) * (1 + Real.logb 2 (max (1 / (1 / 2) : ℝ) 1) * (1 / 10)) =
      88 / 5 := by
    rw [hlogb]
    norm_num
  refine ⟨?_, ?_, by norm_num⟩
  · simp only [adaptiveMaxIter, if_pos rfl]
    rw [hexpr, truncInt, if_pos (by norm_num : (0 : ℝ) ≤ 88 / 5)]
    have hfl : ⌊(88 / 5 : ℝ)⌋ = 17 := by
      rw [Int.floor_eq_iff]
      constructor <;> norm_num
    rw [hfl]
    norm_num
  · simp only [adaptiveMaxIterSpecRounded, if_pos rfl]
    rw [hexpr]
    have hrd : round (88 / 5 : ℝ) = 18 := by
      rw [round_eq]
      have : (88 / 5 : ℝ) + 1 / 2 = 181 / 10 := by norm_num
      rw [this, Int.floor_eq_iff]
      constructor <;> norm_num
    rw [hrd]
    norm_num

end Mandelbrot
